import Mathlib

/-!
# Verification of the STT capture / mixing / batch-transcription core

Shallow embedding of the algorithmic core of the STT repository:

* `audio_engine.py` — `_clamp16`, `AudioEngine.open_streams`,
  `AudioEngine.read_and_mix`, `AudioEngine.close_streams`;
* `transcription_engine.py` — `TranscriptionEngine.process_chunk`;
* `file_transcriber.py` — `FileTranscriptionWorker.run` / `_do_transcription`
  / `cancel` / `_cleanup`;
* `main.py` — `AudioWorker.run`.

Python machine-level conventions used in the embedding:

* int16 samples are `Int` (the Python code unpacks them with `struct.unpack`
  into unbounded Python ints before mixing, so no wrap-around occurs);
* the per-source gain is a rational number.  The Python code stores gains as
  binary floats; every concrete gain used in a theorem below (1, 1/2, 1/4) is
  exactly representable as a binary float and all products taken at those
  gains with int16 samples are exact in double precision, so the rational
  model agrees with the float execution on every input appearing here;
* Python's `int(x)` conversion truncates toward zero; it is modelled by
  `truncQ`;
* raising an exception is modelled with an explicit error component;
* the event emissions of the worker threads (`pyqtSignal.emit`) are modelled
  as ordered lists of `Event` values.
-/

namespace STT

/-! ## Audio constants (`audio_engine.py` lines 13–17) -/

def SAMPLE_RATE : Nat := 16000

def CHUNK_SIZE : Nat := 4000

def BYTES_PER_SAMPLE : Nat := 2

/-! ## Clamping (`audio_engine.py` `_clamp16`, lines 20–22) -/

/-- `_clamp16(value) = max(-32768, min(32767, value))`. -/
def clamp16 (value : Int) : Int := max (-32768) (min 32767 value)

/-- Python's `int(x)` for a real `x`: truncation toward zero. -/
def truncQ (q : ℚ) : Int := if 0 ≤ q then ⌊q⌋ else ⌈q⌉

theorem truncQ_intCast (s : Int) : truncQ (s : ℚ) = s := by
  unfold truncQ
  split <;> simp

/-! ## The mixing cycle (`audio_engine.py` `read_and_mix`, lines 99–125)

One element of `AudioEngine._streams` together with the outcome of this
cycle's interaction with it: `isActive` is the value of `stream.is_active()`,
and `readResult` is `some raw` when `stream.read(CHUNK_SIZE, ...)` returns
the int16 samples `raw`, `none` when the read (or the activity check) raises
`OSError`.  A handle that is inactive or whose read fails contributes nothing
to the mix this cycle (the `continue` branches at lines 112–116). -/

structure Handle where
  isActive : Bool
  readResult : Option (List Int)
  gain : ℚ
deriving DecidableEq

/-- One iteration of the `for stream, gain in self._streams` loop: fold the
handle's gained samples into the accumulator `mixed` (line 120–121:
`mixed[i] += int(s * gain)`), or leave `mixed` unchanged when the handle is
inactive or its read raised. -/
def mixStep (mixed : List Int) (h : Handle) : List Int :=
  if h.isActive then
    match h.readResult with
    | some raw => List.zipWith (fun (m s : Int) => m + truncQ ((s : ℚ) * h.gain)) mixed raw
    | none => mixed
  else mixed

/-- `AudioEngine.read_and_mix`: returns `b""` (here `[]`) when no streams are
open (lines 105–106); otherwise accumulates every active handle's gained
samples into a zero buffer of length `CHUNK_SIZE` and clamps each sum to the
int16 range (lines 108–125).  The returned byte string is the int16 packing
of the returned list, so its byte length is `BYTES_PER_SAMPLE` times the list
length. -/
def read_and_mix (streams : List Handle) : List Int :=
  if streams.isEmpty then []
  else (streams.foldl mixStep (List.replicate CHUNK_SIZE 0)).map clamp16

/-- What the code adds to `mixed[i]` on behalf of one handle:
`int(sample[i] * gain)` for an active handle with a successful read, `0`
otherwise. -/
def contribution (h : Handle) (i : Nat) : Int :=
  if h.isActive then
    match h.readResult with
    | some raw => truncQ ((raw.getD i 0 : ℚ) * h.gain)
    | none => 0
  else 0

/-- The pre-clamp sum at sample position `i` over all handles. -/
def preClampSum (streams : List Handle) (i : Nat) : Int :=
  (streams.map (fun h => contribution h i)).sum

/-- Modelled from the spec's words (claim side of C1, not from the source):
the per-handle contribution the claim asserts, `round(sample[i] * gain)`,
with `round` the usual rounding to the nearest integer. -/
def contributionRound (h : Handle) (i : Nat) : Int :=
  if h.isActive then
    match h.readResult with
    | some raw => round ((raw.getD i 0 : ℚ) * h.gain)
    | none => 0
  else 0

/-- Modelled from the spec's words (claim side of C1): the claimed pre-clamp
sum `Σ round(sᵢ * gᵢ)`. -/
def preClampSumRound (streams : List Handle) (i : Nat) : Int :=
  (streams.map (fun h => contributionRound h i)).sum

/-- The guard `if not data: continue` of the capture loop in `main.py`
(line 76): a frame is handed to the recognizer exactly when it is non-empty. -/
def feedsRecognizer (data : List Int) : Bool := !data.isEmpty

/-! ## List helper lemmas -/

theorem zipWith_getD_of_lt (f : Int → Int → Int) :
    ∀ (l₁ l₂ : List Int) (i : Nat), i < l₁.length → i < l₂.length →
      (List.zipWith f l₁ l₂).getD i 0 = f (l₁.getD i 0) (l₂.getD i 0) := by
  intro l₁
  induction l₁ with
  | nil => intro l₂ i h₁ _; simp at h₁
  | cons a t ih =>
      intro l₂ i h₁ h₂
      cases l₂ with
      | nil => simp at h₂
      | cons b t₂ =>
          cases i with
          | zero => simp [List.getD]
          | succ n =>
              simp only [List.zipWith_cons_cons, List.getD_cons_succ]
              exact ih t₂ n (Nat.lt_of_succ_lt_succ h₁) (Nat.lt_of_succ_lt_succ h₂)

theorem getD_map_clamp16 (l : List Int) (i : Nat) (hi : i < l.length) :
    (l.map clamp16).getD i 0 = clamp16 (l.getD i 0) := by
  induction l generalizing i with
  | nil => simp at hi
  | cons a t ih =>
      cases i with
      | zero => simp [List.getD]
      | succ n => simp only [List.map_cons, List.getD_cons_succ]; exact ih n (Nat.lt_of_succ_lt_succ hi)

theorem getD_replicate_zero (n i : Nat) : (List.replicate n (0 : Int)).getD i 0 = 0 := by
  induction n generalizing i with
  | zero => simp [List.getD]
  | succ m ih =>
      cases i with
      | zero => simp [List.replicate_succ, List.getD]
      | succ k => simp only [List.replicate_succ, List.getD_cons_succ]; exact ih k

theorem mixStep_length (mixed : List Int) (h : Handle)
    (hraw : ∀ raw, h.readResult = some raw → raw.length = mixed.length) :
    (mixStep mixed h).length = mixed.length := by
  unfold mixStep
  split
  · cases hr : h.readResult with
    | none => simp
    | some raw => simp [hraw raw hr]
  · rfl

theorem mixStep_getD (mixed : List Int) (h : Handle) (i : Nat)
    (hi : i < mixed.length)
    (hraw : ∀ raw, h.readResult = some raw → raw.length = mixed.length) :
    (mixStep mixed h).getD i 0 = mixed.getD i 0 + contribution h i := by
  unfold mixStep contribution
  split
  · cases hr : h.readResult with
    | none => simp
    | some raw =>
        have hlen : raw.length = mixed.length := hraw raw hr
        simp only
        rw [zipWith_getD_of_lt _ mixed raw i hi (hlen ▸ hi)]
  · simp

theorem foldl_mixStep_getD (streams : List Handle) :
    ∀ (mixed : List Int), mixed.length = CHUNK_SIZE →
      (∀ h ∈ streams, ∀ raw, h.readResult = some raw → raw.length = CHUNK_SIZE) →
      ∀ i, i < CHUNK_SIZE →
        (streams.foldl mixStep mixed).getD i 0 = mixed.getD i 0 + preClampSum streams i := by
  induction streams with
  | nil => intro mixed _ _ i _; simp [preClampSum]
  | cons h t ih =>
      intro mixed hlen hraw i hi
      have hlenh : ∀ raw, h.readResult = some raw → raw.length = mixed.length := by
        intro raw hr
        rw [hlen]
        exact hraw h (List.mem_cons_self h t) raw hr
      have hstep : (mixStep mixed h).length = CHUNK_SIZE := by
        rw [mixStep_length mixed h hlenh, hlen]
      have hrest : ∀ g ∈ t, ∀ raw, g.readResult = some raw → raw.length = CHUNK_SIZE := by
        intro g hg raw hr
        exact hraw g (List.mem_cons_of_mem h hg) raw hr
      calc (List.foldl mixStep mixed (h :: t)).getD i 0
          = (t.foldl mixStep (mixStep mixed h)).getD i 0 := by simp
        _ = (mixStep mixed h).getD i 0 + preClampSum t i := ih (mixStep mixed h) hstep hrest i hi
        _ = mixed.getD i 0 + contribution h i + preClampSum t i := by
              rw [mixStep_getD mixed h i (hlen ▸ hi) hlenh]
        _ = mixed.getD i 0 + preClampSum (h :: t) i := by
              simp [preClampSum]
              ring

theorem foldl_mixStep_length (streams : List Handle) :
    ∀ (mixed : List Int), mixed.length = CHUNK_SIZE →
      (∀ h ∈ streams, ∀ raw, h.readResult = some raw → raw.length = CHUNK_SIZE) →
      (streams.foldl mixStep mixed).length = CHUNK_SIZE := by
  induction streams with
  | nil => intro mixed hlen _; simpa using hlen
  | cons h t ih =>
      intro mixed hlen hraw
      have hlenh : ∀ raw, h.readResult = some raw → raw.length = mixed.length := by
        intro raw hr
        rw [hlen]
        exact hraw h (List.mem_cons_self h t) raw hr
      have hstep : (mixStep mixed h).length = CHUNK_SIZE := by
        rw [mixStep_length mixed h hlenh, hlen]
      simpa using ih (mixStep mixed h) hstep
        (fun g hg raw hr => hraw g (List.mem_cons_of_mem h hg) raw hr)

/-- C8: the clamping step maps any value ≥ 32767 to 32767, any value
≤ -32768 to -32768, and leaves every value in [-32768, 32767] unchanged. -/
theorem c8_clamp (v : Int) :
    (32767 ≤ v → clamp16 v = 32767)
    ∧ (v ≤ -32768 → clamp16 v = -32768)
    ∧ (-32768 ≤ v → v ≤ 32767 → clamp16 v = v) := by
  unfold clamp16
  refine ⟨fun h => ?_, fun h => ?_, fun h₁ h₂ => ?_⟩ <;> omega

/-- Witness for C8 at the concrete inputs 40000, -40000 and 5. -/
theorem c8_clamp_witness :
    clamp16 40000 = 32767 ∧ clamp16 (-40000) = -32768 ∧ clamp16 5 = 5 :=
  ⟨(c8_clamp 40000).1 (by decide),
   (c8_clamp (-40000)).2.1 (by decide),
   (c8_clamp 5).2.2 (by decide) (by decide)⟩

/-! ## One-handle mixing -/

theorem clamp16_eq_self {v : Int} (h₁ : -32768 ≤ v) (h₂ : v ≤ 32767) : clamp16 v = v := by
  unfold clamp16
  omega

theorem zipWith_mix_replicate (g : ℚ) :
    ∀ (samples : List Int) (n : Nat), samples.length = n →
      List.zipWith (fun (m s : Int) => m + truncQ ((s : ℚ) * g)) (List.replicate n 0) samples
        = samples.map (fun (s : Int) => truncQ ((s : ℚ) * g)) := by
  intro samples
  induction samples with
  | nil => intro n _; simp
  | cons a t ih =>
      intro n hn
      cases n with
      | zero => simp at hn
      | succ m =>
          have ht : t.length = m := by simpa using hn
          simp [List.replicate_succ, ih m ht]

theorem read_and_mix_single (g : ℚ) (samples : List Int) (hlen : samples.length = CHUNK_SIZE) :
    read_and_mix [⟨true, some samples, g⟩]
      = samples.map (fun (s : Int) => clamp16 (truncQ ((s : ℚ) * g))) := by
  unfold read_and_mix
  rw [if_neg (by simp)]
  simp only [List.foldl_cons, List.foldl_nil, mixStep]
  rw [if_pos trivial]
  rw [zipWith_mix_replicate g samples CHUNK_SIZE hlen, List.map_map]
  rfl

theorem getD_zero_replicate (n : Nat) (hn : n ≠ 0) (c : Int) :
    (List.replicate n c).getD 0 0 = c := by
  cases n with
  | zero => exact absurd rfl hn
  | succ m => simp [List.replicate_succ, List.getD]

/-- C1 (amended): for every cycle with at least one open handle, each output
sample position `i` equals `clamp16` of the sum over handles of
`trunc(sample[i] * gain)`, where `trunc` truncates toward zero (Python
`int()`); handles that are inactive or whose read fails contribute 0. -/
theorem c1_mix_formula (streams : List Handle) (hne : streams ≠ [])
    (hlen : ∀ h ∈ streams, ∀ raw, h.readResult = some raw → raw.length = CHUNK_SIZE)
    (i : Nat) (hi : i < CHUNK_SIZE) :
    (read_and_mix streams).getD i 0 = clamp16 (preClampSum streams i) := by
  unfold read_and_mix
  rw [if_neg (by simpa using hne)]
  have hfl : (streams.foldl mixStep (List.replicate CHUNK_SIZE 0)).length = CHUNK_SIZE :=
    foldl_mixStep_length streams _ (by simp) hlen
  rw [getD_map_clamp16 _ i (by rw [hfl]; exact hi)]
  rw [foldl_mixStep_getD streams _ (by simp) hlen i hi]
  rw [getD_replicate_zero, zero_add]

/-- Witness for the amended C1: a single active handle of gain 2 reading the
constant frame 100. -/
theorem c1_mix_formula_witness :
    (read_and_mix [(⟨true, some (List.replicate CHUNK_SIZE 100), 2⟩ : Handle)]).getD 0 0
      = clamp16 (preClampSum [(⟨true, some (List.replicate CHUNK_SIZE 100), 2⟩ : Handle)] 0) := by
  refine c1_mix_formula _ (by simp) ?_ 0 (by decide)
  intro h hh raw hr
  rw [List.mem_singleton] at hh
  subst hh
  simp only [Option.some.injEq] at hr
  subst hr
  simp

/-- C1 counterexample: the claim says the per-source pre-clamp contribution is
`round(s * gain)`.  The code computes `int(s * gain)`, which truncates toward
zero.  At sample -7 and gain 1/4 (both exactly representable in the float
execution) the code produces `int(-1.75) = -1` per position while the claimed
formula produces `clamp16(round(-1.75)) = -2`. -/
theorem c1_counterexample :
    (read_and_mix [(⟨true, some (List.replicate CHUNK_SIZE (-7)), (1 : ℚ)/4⟩ : Handle)]).getD 0 0
      ≠ clamp16
          (preClampSumRound [(⟨true, some (List.replicate CHUNK_SIZE (-7)), (1 : ℚ)/4⟩ : Handle)] 0) := by
  have htr : truncQ (((-7 : ℤ) : ℚ) * ((1 : ℚ)/4)) = -1 := by
    unfold truncQ
    rw [if_neg (by push_cast; norm_num)]
    rw [Int.ceil_eq_iff]
    constructor <;> (push_cast; norm_num)
  have hrd : round (((-7 : ℤ) : ℚ) * ((1 : ℚ)/4)) = -2 := by
    rw [round_eq, Int.floor_eq_iff]
    constructor <;> (push_cast; norm_num)
  have hget : ((List.replicate CHUNK_SIZE (-7 : ℤ))[0]?).getD 0 = -7 := by
    have h0 := getD_zero_replicate CHUNK_SIZE (by decide) (-7)
    rwa [List.getD_eq_getElem?_getD] at h0
  have hsum : preClampSumRound
      [(⟨true, some (List.replicate CHUNK_SIZE (-7)), (1 : ℚ)/4⟩ : Handle)] 0
        = round (((-7 : ℤ) : ℚ) * ((1 : ℚ)/4)) := by
    simp [preClampSumRound, contributionRound, hget]
  rw [read_and_mix_single ((1 : ℚ)/4) _ (by simp), List.map_replicate,
    getD_zero_replicate CHUNK_SIZE (by decide), htr, hsum, hrd]
  decide

theorem mixStep_dead (mixed : List Int) (h : Handle)
    (hd : h.isActive = false ∨ h.readResult = none) : mixStep mixed h = mixed := by
  unfold mixStep
  rcases hd with hd | hd
  · simp [hd]
  · simp [hd]

theorem foldl_mixStep_dead :
    ∀ (streams : List Handle),
      (∀ h ∈ streams, h.isActive = false ∨ h.readResult = none) →
      ∀ mixed, streams.foldl mixStep mixed = mixed := by
  intro streams
  induction streams with
  | nil => intro _ mixed; rfl
  | cons h t ih =>
      intro hd mixed
      simp only [List.foldl_cons]
      rw [mixStep_dead mixed h (hd h (List.mem_cons_self h t))]
      exact ih (fun g hg => hd g (List.mem_cons_of_mem h hg)) mixed

/-- C9: with at least one open handle, `read_and_mix` always returns exactly
`CHUNK_SIZE` int16 samples (`BYTES_PER_SAMPLE * CHUNK_SIZE = 8000` bytes);
even if every handle is inactive or every read fails, the result is the
all-zero frame, which is non-empty and therefore still handed to the
recognizer by the capture loop's `if not data` guard. -/
theorem c9_fixed_size (streams : List Handle) (hne : streams ≠ [])
    (hlen : ∀ h ∈ streams, ∀ raw, h.readResult = some raw → raw.length = CHUNK_SIZE) :
    (read_and_mix streams).length = CHUNK_SIZE
    ∧ BYTES_PER_SAMPLE * (read_and_mix streams).length = 8000
    ∧ feedsRecognizer (read_and_mix streams) = true
    ∧ ((∀ h ∈ streams, h.isActive = false ∨ h.readResult = none) →
        read_and_mix streams = List.replicate CHUNK_SIZE 0) := by
  have hlength : (read_and_mix streams).length = CHUNK_SIZE := by
    unfold read_and_mix
    rw [if_neg (by simpa using hne)]
    rw [List.length_map]
    exact foldl_mixStep_length streams _ (by simp) hlen
  refine ⟨hlength, by rw [hlength]; decide, ?_, ?_⟩
  · unfold feedsRecognizer
    have : read_and_mix streams ≠ [] := by
      intro hempty
      rw [hempty] at hlength
      exact absurd hlength (by decide)
    simpa [List.isEmpty_iff]
  · intro hdead
    unfold read_and_mix
    rw [if_neg (by simpa using hne)]
    rw [foldl_mixStep_dead streams hdead]
    rw [List.map_replicate]
    rfl

/-- Witness for C9: one open handle whose read fails this cycle. -/
theorem c9_fixed_size_witness :
    (read_and_mix [(⟨true, none, 1⟩ : Handle)]).length = CHUNK_SIZE
    ∧ feedsRecognizer (read_and_mix [(⟨true, none, 1⟩ : Handle)]) = true
    ∧ read_and_mix [(⟨true, none, 1⟩ : Handle)] = List.replicate CHUNK_SIZE 0 :=
  ⟨(c9_fixed_size _ (by simp) (by simp)).1,
   (c9_fixed_size _ (by simp) (by simp)).2.2.1,
   (c9_fixed_size _ (by simp) (by simp)).2.2.2 (by simp)⟩

/-- C10: with exactly one open handle at gain 1.0, `read_and_mix` returns the
frame read from that handle unchanged: `int(s * 1.0) = s` and clamping is the
identity on values already in the int16 range. -/
theorem c10_unity_gain_identity (samples : List Int) (hlen : samples.length = CHUNK_SIZE)
    (hrange : ∀ s ∈ samples, -32768 ≤ s ∧ s ≤ 32767) :
    read_and_mix [⟨true, some samples, 1⟩] = samples := by
  rw [read_and_mix_single 1 samples hlen]
  have hid : ∀ s ∈ samples, clamp16 (truncQ ((s : ℚ) * 1)) = s := by
    intro s hs
    rw [mul_one, truncQ_intCast]
    exact clamp16_eq_self (hrange s hs).1 (hrange s hs).2
  simpa using List.map_congr_left hid

/-- Witness for C10: the constant in-range frame 1234 round-trips. -/
theorem c10_unity_gain_identity_witness :
    read_and_mix [⟨true, some (List.replicate CHUNK_SIZE 1234), 1⟩]
      = List.replicate CHUNK_SIZE 1234 :=
  c10_unity_gain_identity _ (by simp)
    (fun s hs => by rw [List.eq_of_mem_replicate hs]; exact ⟨by decide, by decide⟩)

/-! ## Stream management (`audio_engine.py` `open_streams` lines 68–97,
`close_streams` lines 127–136) -/

/-- One entry of the `sources` argument of `open_streams`:
`{"device_index": int, "gain": float, "enabled": bool}`. -/
structure Source where
  deviceIndex : Int
  gain : ℚ
  enabled : Bool
deriving DecidableEq

/-- An element of `AudioEngine._streams` as identified by the device it was
opened on and its gain tag. -/
structure OpenHandle where
  deviceIndex : Int
  gain : ℚ
deriving DecidableEq

/-- The mixer's mutable state: the `_streams` list. -/
structure EngineState where
  streams : List OpenHandle
deriving DecidableEq

/-- Observable stream lifecycle actions, in program order: `close_streams`
stops and closes a handle (`closed`), the loop body of `open_streams` opens
one (`opened`). -/
inductive StreamEvent where
  | closed (h : OpenHandle)
  | opened (h : OpenHandle)
deriving DecidableEq

/-- One iteration of the `for src in sources` loop of `open_streams`
(lines 77–94): skip a disabled source, append a handle when `pa.open`
succeeds (`openOk`), and skip the source when `pa.open` raises `OSError`. -/
def tryOpen (openOk : Int → Bool) (acc : List OpenHandle) (src : Source) : List OpenHandle :=
  if src.enabled = false then acc
  else if openOk src.deviceIndex then acc ++ [⟨src.deviceIndex, src.gain⟩]
  else acc

/-- Closed form of the set of handles `open_streams` ends up with: one handle
per enabled source whose `pa.open` succeeded, in source order. -/
def opensOf (openOk : Int → Bool) (sources : List Source) : List OpenHandle :=
  sources.filterMap fun src =>
    if src.enabled && openOk src.deviceIndex then some ⟨src.deviceIndex, src.gain⟩ else none

def errNoStreams : String := "No audio streams could be opened. Check your device settings."

/-- `AudioEngine.open_streams`: first `close_streams()` (line 75, emitting a
`closed` event per previously open handle and clearing `_streams`), then the
open loop, then `raise RuntimeError(...)` when `_streams` is still empty
(lines 96–97).  Returns the new state, the lifecycle event trace of the call,
and the raised error if any. -/
def open_streams (openOk : Int → Bool) (st : EngineState) (sources : List Source) :
    EngineState × List StreamEvent × Option String :=
  let closeEvents := st.streams.map StreamEvent.closed
  let streams := sources.foldl (tryOpen openOk) []
  if streams.isEmpty then
    (⟨[]⟩, closeEvents ++ streams.map StreamEvent.opened, some errNoStreams)
  else
    (⟨streams⟩, closeEvents ++ streams.map StreamEvent.opened, none)

/-- `AudioEngine.close_streams`: best-effort close of every handle, always
leaving `_streams` empty. -/
def close_streams (st : EngineState) : EngineState × List StreamEvent :=
  (⟨[]⟩, st.streams.map StreamEvent.closed)

theorem foldl_tryOpen (openOk : Int → Bool) :
    ∀ (sources : List Source) (acc : List OpenHandle),
      sources.foldl (tryOpen openOk) acc = acc ++ opensOf openOk sources := by
  intro sources
  induction sources with
  | nil => intro acc; simp [opensOf]
  | cons src t ih =>
      intro acc
      simp only [List.foldl_cons, ih, opensOf, List.filterMap_cons]
      unfold tryOpen
      rcases hsrc : src.enabled with _ | _
      · simp [hsrc]
      · rcases hok : openOk src.deviceIndex with _ | _
        · simp [hsrc, hok]
        · simp [hsrc, hok]

theorem opensOf_length_le (openOk : Int → Bool) :
    ∀ sources : List Source,
      (opensOf openOk sources).length ≤ (sources.filter (fun s => s.enabled)).length := by
  intro sources
  induction sources with
  | nil => simp [opensOf]
  | cons src t ih =>
      unfold opensOf at ih ⊢
      rw [List.filterMap_cons, List.filter_cons]
      by_cases hb : (src.enabled && openOk src.deviceIndex) = true
      · have hen : src.enabled = true := (Bool.and_eq_true _ _ |>.mp hb).1
        rw [if_pos hb, if_pos hen]
        simpa using Nat.succ_le_succ ih
      · rw [if_neg hb]
        by_cases hen : src.enabled = true
        · rw [if_pos hen]
          simpa using Nat.le_succ_of_le ih
        · rw [if_neg hen]
          exact ih

/-- C7: `open_streams` fully replaces the handle set.  The resulting set is
exactly one handle per enabled source whose open succeeded (failures are
skipped, not fatal), it does not depend on the prior state, the call's trace
closes every previously open handle before any open occurs, and at most one
handle arises per enabled source. -/
theorem c7_full_replacement (openOk : Int → Bool) (st st' : EngineState)
    (sources : List Source) :
    (open_streams openOk st sources).1.streams = opensOf openOk sources
    ∧ (open_streams openOk st sources).1.streams = (open_streams openOk st' sources).1.streams
    ∧ (open_streams openOk st sources).2.1
        = st.streams.map StreamEvent.closed
          ++ (opensOf openOk sources).map StreamEvent.opened
    ∧ (opensOf openOk sources).length ≤ (sources.filter (fun s => s.enabled)).length := by
  have hout : ∀ t : EngineState,
      (open_streams openOk t sources).1.streams = opensOf openOk sources := by
    intro t
    unfold open_streams
    simp only [foldl_tryOpen openOk sources [], List.nil_append]
    rcases he : (opensOf openOk sources).isEmpty with _ | _
    · simp [he]
    · simp only [he, if_pos rfl]
      exact (List.isEmpty_iff.mp he).symm
  refine ⟨hout st, (hout st).trans (hout st').symm, ?_, opensOf_length_le openOk sources⟩
  unfold open_streams
  simp only [foldl_tryOpen openOk sources [], List.nil_append]
  rcases he : (opensOf openOk sources).isEmpty with _ | _
  · simp [he]
  · simp [he]

/-- Witness for C7 at a concrete configuration: one stale handle, one enabled
source that opens, one enabled source that fails to open, one disabled
source. -/
theorem c7_full_replacement_witness :
    (open_streams (fun d => d == 3) ⟨[⟨0, 1⟩]⟩
        [⟨3, 1, true⟩, ⟨5, 2, true⟩, ⟨3, 1, false⟩]).1.streams
      = opensOf (fun d => d == 3) [⟨3, 1, true⟩, ⟨5, 2, true⟩, ⟨3, 1, false⟩]
    ∧ (open_streams (fun d => d == 3) ⟨[⟨0, 1⟩]⟩
        [⟨3, 1, true⟩, ⟨5, 2, true⟩, ⟨3, 1, false⟩]).2.1
      = [StreamEvent.closed ⟨0, 1⟩, StreamEvent.opened ⟨3, 1⟩] := by
  refine ⟨(c7_full_replacement (fun d => d == 3) ⟨[⟨0, 1⟩]⟩ ⟨[]⟩
      [⟨3, 1, true⟩, ⟨5, 2, true⟩, ⟨3, 1, false⟩]).1, ?_⟩
  rw [(c7_full_replacement (fun d => d == 3) ⟨[⟨0, 1⟩]⟩ ⟨[]⟩
      [⟨3, 1, true⟩, ⟨5, 2, true⟩, ⟨3, 1, false⟩]).2.2.1]
  have : opensOf (fun d => d == 3) [⟨3, 1, true⟩, ⟨5, 2, true⟩, ⟨3, 1, false⟩]
      = [(⟨3, 1⟩ : OpenHandle)] := by decide
  rw [this]
  rfl

/-- C6: with an empty source list, all sources disabled, or every attempted
open failing, `open_streams` ends with zero open handles and raises the
no-streams error; and `read_and_mix` on a mixer with zero open handles
returns the empty result without raising. -/
theorem c6_no_streams (openOk : Int → Bool) (st : EngineState) (sources : List Source)
    (hall : ∀ src ∈ sources, src.enabled = false ∨ openOk src.deviceIndex = false) :
    (open_streams openOk st sources).1.streams = []
    ∧ (open_streams openOk st sources).2.2 = some errNoStreams
    ∧ read_and_mix [] = [] := by
  have hopens : opensOf openOk sources = [] := by
    induction sources with
    | nil => simp [opensOf]
    | cons src t ih =>
        have hcond : (src.enabled && openOk src.deviceIndex) = false := by
          rcases hall src (List.mem_cons_self src t) with h | h <;> simp [h]
        have ht : opensOf openOk t = [] :=
          ih fun g hg => hall g (List.mem_cons_of_mem src hg)
        unfold opensOf at ht ⊢
        rw [List.filterMap_cons, hcond]
        simpa using ht

  unfold open_streams
  simp only [foldl_tryOpen openOk sources [], List.nil_append, hopens]
  exact ⟨rfl, rfl, rfl⟩

/-- Witness for C6: a single disabled source. -/
theorem c6_no_streams_witness :
    (open_streams (fun _ => true) ⟨[]⟩ [⟨0, 1, false⟩]).1.streams = []
    ∧ (open_streams (fun _ => true) ⟨[]⟩ [⟨0, 1, false⟩]).2.2 = some errNoStreams
    ∧ read_and_mix [] = [] :=
  c6_no_streams (fun _ => true) ⟨[]⟩ [⟨0, 1, false⟩]
    (by intro src hs; rw [List.mem_singleton] at hs; subst hs; left; rfl)

/-! ## Recognition wrapper (`transcription_engine.py` `process_chunk`,
lines 36–52)

Strings from the engine are modelled as lists of characters; Python's
`str.strip()` is `pyStrip`.  The underlying Vosk call is abstracted by its
observable outcome for the chunk: `AcceptWaveform` returned true together
with the `text` field of `Result()` (`accepted`), or it returned false
together with the `partial` field of `PartialResult()` (`pending`). -/

def pyStrip (s : List Char) : List Char :=
  ((s.dropWhile Char.isWhitespace).reverse.dropWhile Char.isWhitespace).reverse

inductive VoskResponse where
  | accepted (text : List Char)
  | pending (text : List Char)
deriving DecidableEq

/-- The raw engine text underlying a response. -/
def rawText : VoskResponse → List Char
  | VoskResponse.accepted t => t
  | VoskResponse.pending t => t

/-- `TranscriptionEngine.process_chunk`: on an utterance boundary return the
stripped final text (suppressed to `none` when empty) and no partial;
otherwise return no final and the stripped partial hypothesis (suppressed to
`none` when empty). -/
def process_chunk (resp : VoskResponse) : Option (List Char) × Option (List Char) :=
  match resp with
  | VoskResponse.accepted t =>
      let text := pyStrip t
      (if text = [] then none else some text, none)
  | VoskResponse.pending t =>
      let text := pyStrip t
      (none, if text = [] then none else some text)

theorem pyStrip_of_all_whitespace (s : List Char) (hws : ∀ c ∈ s, c.isWhitespace) :
    pyStrip s = [] := by
  unfold pyStrip
  rw [List.dropWhile_eq_nil_iff.mpr hws]
  rfl

/-- C5: a single `process_chunk` call never populates both components of the
result, and a response whose engine text is empty or whitespace-only is
suppressed to `none` in both positions. -/
theorem c5_exclusivity (resp : VoskResponse) :
    ((process_chunk resp).1 = none ∨ (process_chunk resp).2 = none)
    ∧ ((∀ c ∈ rawText resp, c.isWhitespace) →
        (process_chunk resp).1 = none ∧ (process_chunk resp).2 = none) := by
  cases resp with
  | accepted t =>
      refine ⟨Or.inr rfl, fun hws => ⟨?_, rfl⟩⟩
      simp only [process_chunk]
      rw [if_pos (pyStrip_of_all_whitespace t hws)]
  | pending t =>
      refine ⟨Or.inl rfl, fun hws => ⟨rfl, ?_⟩⟩
      simp only [process_chunk]
      rw [if_pos (pyStrip_of_all_whitespace t hws)]

/-- Witness for C5: a whitespace-only final from the engine is suppressed in
both positions. -/
theorem c5_exclusivity_witness :
    (process_chunk (VoskResponse.accepted [' ', '\t'])).1 = none
    ∧ (process_chunk (VoskResponse.accepted [' ', '\t'])).2 = none :=
  (c5_exclusivity (VoskResponse.accepted [' ', '\t'])).2 (by decide)

/-! ## Batch file pipeline (`file_transcriber.py`) and capture worker
(`main.py`)

The signal emissions of the two background workers, in emission order.
`progress` is `progress_updated`, `text` is the batch worker's
`text_updated`, `finished` is `finished_signal`, `error` is
`error_occurred`; `finalText` and `interimText` are the capture worker's
`text_ready` and `partial_ready`. -/

inductive Event where
  | progress (pct : Nat)
  | text (s : String)
  | finalText (s : String)
  | interimText (s : String)
  | finished
  | error (msg : String)
deriving DecidableEq

def _CHUNK_FRAMES : Nat := 4000

/-- The cancellation flag as read at the n-th check of a run.  Checks are
numbered from 0: check 0 is the `if self._is_cancelled` after `_ensure_wav`
(line 89), check `j ≥ 1` is the one at the top of loop iteration `j`
(line 119).  `cancelFrom = some c` means `cancel()` was called between check
`c - 1` and check `c`, so the flag reads true from check `c` on (the flag is
monotonic: it is only ever set, never cleared).  `none` means `cancel()` is
never called. -/
def isCancelled (cancelFrom : Option Nat) (j : Nat) : Bool :=
  match cancelFrom with
  | none => false
  | some c => decide (c ≤ j)

/-- Number of loop iterations in which `wf.readframes(_CHUNK_FRAMES)`
returns non-empty data for a file of `total` frames: `readframes` returns
`min(_CHUNK_FRAMES, remaining)` frames, so there are `⌈total / 4000⌉` such
iterations, after which the read returns empty data and the loop breaks. -/
def numChunks (total : Nat) : Nat := (total + (_CHUNK_FRAMES - 1)) / _CHUNK_FRAMES

/-- The chunk loop of `_do_transcription` (lines 118–147), including the
post-loop flush, the unconditional `progress_updated.emit(100)` at line 146
and `finished_signal.emit()` at line 147.

Arguments: `ct j` is the text emitted for chunk `j` (`none` when
`AcceptWaveform` returned false for that chunk or its stripped text was
empty), `flush` the stripped `FinalResult` text, `total` the frame count,
`j` the current iteration index (starting at 1), `fp` the
`frames_processed` counter, `lastPct` the `last_pct` variable (`none` models
its initial value -1, which no emitted percentage ever equals), and `n` the
number of data-bearing chunk reads remaining.  Returns the emitted events
and whether the loop completed normally (reached the break and the
finalization) rather than exiting through a cancellation check. -/
def chunkLoop (cf : Option Nat) (ct : Nat → Option String) (flush : Option String)
    (total : Nat) : Nat → Nat → Option Nat → Nat → List Event × Bool
  | j, _, _, 0 =>
      if isCancelled cf j then ([], false)
      else
        ((match flush with
          | some s => [Event.text s]
          | none => []) ++ [Event.progress 100, Event.finished], true)
  | j, fp, lastPct, n + 1 =>
      if isCancelled cf j then ([], false)
      else
        let fp' := fp + _CHUNK_FRAMES
        let pct := min (fp' * 100 / total) 100
        let textEv : List Event :=
          match ct j with
          | some s => [Event.text s]
          | none => []
        let progEv : List Event := if some pct ≠ lastPct then [Event.progress pct] else []
        let r := chunkLoop cf ct flush total (j + 1) fp' (some pct) n
        (textEv ++ progEv ++ r.1, r.2)

/-- The environment of one `FileTranscriptionWorker` run: whether
`shutil.which("ffmpeg")` finds the tool, whether the conversion subprocess
exits 0, whether the model directory exists, the frame count of the
converted WAV, the cancellation schedule, and the recognizer's text output
per chunk and at the final flush. -/
structure BatchEnv where
  ffmpegFound : Bool
  convertOk : Bool
  modelFound : Bool
  totalFrames : Nat
  cancelFrom : Option Nat
  chunkText : Nat → Option String
  finalFlush : Option String

/-- How `_do_transcription` ended: by raising an exception (caught in
`run`), by returning from a cancellation check, by returning after emitting
an error signal itself, or by reaching normal finalization. -/
inductive BatchExit where
  | raised (msg : String)
  | cancelled
  | errored
  | completed
deriving DecidableEq

def ffmpegMissingMsg : String := "FFmpeg is not installed."

def conversionFailedMsg : String := "FFmpeg conversion failed"

def modelMissingMsg : String := "Vosk model not found"

def emptyAudioMsg : String := "Audio file is empty (0 frames)."

/-- `FileTranscriptionWorker._do_transcription` (lines 86–147): `_ensure_wav`
raises when ffmpeg is missing (before creating the temp file) or when the
conversion subprocess fails (after creating it); then the cancellation check
at line 89; then the model-directory check, which emits an error signal and
returns; then the zero-frame check; then the chunk loop. -/
def doTranscription (env : BatchEnv) : List Event × BatchExit :=
  if env.ffmpegFound = false then ([], BatchExit.raised ffmpegMissingMsg)
  else if env.convertOk = false then ([], BatchExit.raised conversionFailedMsg)
  else if isCancelled env.cancelFrom 0 then ([], BatchExit.cancelled)
  else if env.modelFound = false then ([Event.error modelMissingMsg], BatchExit.errored)
  else if env.totalFrames = 0 then ([Event.error emptyAudioMsg], BatchExit.errored)
  else
    let r := chunkLoop env.cancelFrom env.chunkText env.finalFlush env.totalFrames 1 0 none
      (numChunks env.totalFrames)
    (r.1, if r.2 then BatchExit.completed else BatchExit.cancelled)

/-- Classification of a finished `run` call. -/
inductive RunExit where
  | cancelled
  | errored
  | completed
deriving DecidableEq

/-- Outcome of `FileTranscriptionWorker.run`: the emitted events, the exit
class, and whether a temporary conversion file was created and subsequently
deleted.  The temp file is created exactly when ffmpeg was found (`mkstemp`
at line 164 runs after the ffmpeg check at lines 155–161), and the `finally`
block (line 81–82) always runs `_cleanup`, which deletes it. -/
structure RunOutcome where
  events : List Event
  exit : RunExit
  tempFileDeleted : Bool
deriving DecidableEq

/-- `FileTranscriptionWorker.run` (lines 75–82): call `_do_transcription`,
catch any exception and emit it as an `error_occurred` signal, and always
run `_cleanup` in the `finally` block. -/
def runWorker (env : BatchEnv) : RunOutcome :=
  match doTranscription env with
  | (evs, BatchExit.raised msg) => ⟨evs ++ [Event.error msg], RunExit.errored, env.ffmpegFound⟩
  | (evs, BatchExit.cancelled) => ⟨evs, RunExit.cancelled, env.ffmpegFound⟩
  | (evs, BatchExit.errored) => ⟨evs, RunExit.errored, env.ffmpegFound⟩
  | (evs, BatchExit.completed) => ⟨evs, RunExit.completed, env.ffmpegFound⟩

/-- The percentages of the `progress_updated` emissions of a run, in order. -/
def progressEvents (evs : List Event) : List Nat :=
  evs.filterMap fun e =>
    match e with
    | Event.progress p => some p
    | _ => none

/-- Terminal events per §7 of the spec: an error signal or a completion
signal (the code has no cancelled signal). -/
def isTerminal : Event → Bool
  | Event.finished => true
  | Event.error _ => true
  | _ => false

def countTerminal (evs : List Event) : Nat := (evs.filter isTerminal).length

/-- One iteration of the capture loop of `AudioWorker.run` (`main.py` lines
70–84), abstracted by its observable outcome: the loop was paused or
`read_and_mix` returned empty data (no events, lines 71–78), or
`process_chunk` returned the given final/partial pair and the loop emitted
`text_ready` or `partial_ready` accordingly (lines 80–84). -/
inductive CycleOutcome where
  | noData
  | recognized (fin hypo : Option String)
deriving DecidableEq

def cycleEvents : CycleOutcome → List Event
  | CycleOutcome.noData => []
  | CycleOutcome.recognized (some t) _ => [Event.finalText t]
  | CycleOutcome.recognized none (some t) => [Event.interimText t]
  | CycleOutcome.recognized none none => []

/-- The environment of one `AudioWorker.run` call: whether `open_streams`
raises, the outcomes of the loop iterations until `stop()` is observed, and
the `final_result()` flush text. -/
structure AudioEnv where
  openFails : Bool
  cycles : List CycleOutcome
  flushText : Option String

def openFailMsg : String := "Failed to open audio sources"

/-- `AudioWorker.run` (`main.py` lines 59–91): on an `open_streams` failure
emit one error signal and return (no streams were opened, and
`close_streams` is not reached); otherwise run the loop until stopped, then
flush `final_result()` as a final text event if non-empty and call
`close_streams` (the returned flag). -/
def audioRun (env : AudioEnv) : List Event × Bool :=
  if env.openFails then ([Event.error openFailMsg], false)
  else
    ((env.cycles.map cycleEvents).flatten
      ++ (match env.flushText with
          | some t => [Event.finalText t]
          | none => []), true)

/-! ## Batch pipeline lemmas -/

theorem countTerminal_append (a b : List Event) :
    countTerminal (a ++ b) = countTerminal a + countTerminal b := by
  simp [countTerminal, List.filter_append]

theorem progressEvents_append (a b : List Event) :
    progressEvents (a ++ b) = progressEvents a ++ progressEvents b := by
  simp [progressEvents]

theorem countTerminal_textEv (o : Option String) :
    countTerminal (match o with
      | some s => [Event.text s]
      | none => []) = 0 := by
  cases o <;> rfl

theorem progressEvents_textEv (o : Option String) :
    progressEvents (match o with
      | some s => [Event.text s]
      | none => []) = [] := by
  cases o <;> rfl

theorem chunkLoop_countTerminal (cf : Option Nat) (ct : Nat → Option String)
    (flush : Option String) (total : Nat) :
    ∀ (n j fp : Nat) (lp : Option Nat),
      countTerminal (chunkLoop cf ct flush total j fp lp n).1
        = if (chunkLoop cf ct flush total j fp lp n).2 then 1 else 0 := by
  intro n
  induction n with
  | zero =>
      intro j fp lp
      simp only [chunkLoop]
      split
      · rfl
      · rw [if_pos rfl, countTerminal_append, countTerminal_textEv]
        rfl
  | succ m ih =>
      intro j fp lp
      simp only [chunkLoop]
      split
      · rfl
      · rw [countTerminal_append, countTerminal_append, countTerminal_textEv]
        have hprog : countTerminal
            (if some (min ((fp + _CHUNK_FRAMES) * 100 / total) 100) ≠ lp then
              [Event.progress (min ((fp + _CHUNK_FRAMES) * 100 / total) 100)]
            else []) = 0 := by
          split <;> rfl
        rw [hprog]
        simpa using ih (j + 1) (fp + _CHUNK_FRAMES) (some (min ((fp + _CHUNK_FRAMES) * 100 / total) 100))

theorem doTranscription_terminal (env : BatchEnv) :
    countTerminal (doTranscription env).1
      = (match (doTranscription env).2 with
         | BatchExit.raised _ => 0
         | BatchExit.cancelled => 0
         | BatchExit.errored => 1
         | BatchExit.completed => 1) := by
  unfold doTranscription
  split
  · rfl
  · split
    · rfl
    · split
      · rfl
      · split
        · rfl
        · split
          · rfl
          · simp only
            rw [chunkLoop_countTerminal]
            cases (chunkLoop env.cancelFrom env.chunkText env.finalFlush env.totalFrames 1 0 none
              (numChunks env.totalFrames)).2 <;> rfl

theorem countTerminal_cycleEvents (c : CycleOutcome) : countTerminal (cycleEvents c) = 0 := by
  rcases c with _ | ⟨f, h⟩
  · rfl
  · rcases f with _ | t
    · rcases h with _ | t <;> rfl
    · rfl

theorem countTerminal_flatten_cycles (cycles : List CycleOutcome) :
    countTerminal (cycles.map cycleEvents).flatten = 0 := by
  induction cycles with
  | nil => rfl
  | cons c t ih =>
      simp only [List.map_cons, List.flatten_cons]
      rw [countTerminal_append, countTerminal_cycleEvents, ih]

/-- C3 (amended): every run of either background worker runs its
resource-release step, and the number of terminal events it emits is 1 on
every error and on normal completion, but 0 on a cancelled batch run (the
batch worker has no cancelled signal; cancellation is reported by the
caller) and 0 on a normally stopped capture run.  The capture worker's
open-failure path emits exactly one error event; on every other path it
reaches `close_streams`. -/
theorem c3_amended (env : BatchEnv) (aenv : AudioEnv) :
    countTerminal (runWorker env).events
        = (if (runWorker env).exit = RunExit.cancelled then 0 else 1)
    ∧ (runWorker env).tempFileDeleted = env.ffmpegFound
    ∧ countTerminal (audioRun aenv).1 = (if aenv.openFails then 1 else 0)
    ∧ (audioRun aenv).2 = !aenv.openFails := by
  refine ⟨?_, ?_, ?_, ?_⟩
  · have hterm := doTranscription_terminal env
    unfold runWorker
    rcases hdo : doTranscription env with ⟨evs, ex⟩
    rw [hdo] at hterm
    cases ex with
    | raised msg =>
        simp only at hterm ⊢
        rw [countTerminal_append, hterm]
        rfl
    | cancelled => simpa using hterm
    | errored => simpa using hterm
    | completed => simpa using hterm
  · unfold runWorker
    rcases hdo : doTranscription env with ⟨evs, ex⟩
    cases ex <;> rfl
  · unfold audioRun
    rcases ho : aenv.openFails with _ | _
    · simp only [Bool.false_eq_true, if_false]
      rw [countTerminal_append, countTerminal_flatten_cycles]
      cases aenv.flushText <;> rfl
    · rfl
  · unfold audioRun
    rcases ho : aenv.openFails with _ | _ <;> simp [ho]

def envCancelled : BatchEnv :=
  { ffmpegFound := true, convertOk := true, modelFound := true, totalFrames := 8000,
    cancelFrom := some 2, chunkText := fun _ => none, finalFlush := none }

/-- C3 counterexample: the claim says every cancellation path emits exactly
one terminal event.  A batch run over 8000 frames cancelled between chunk 1
and chunk 2 exits as cancelled, emits zero terminal events (the worker
defines no cancelled signal), yet still deletes its temporary file. -/
theorem c3_counterexample :
    (runWorker envCancelled).exit = RunExit.cancelled
    ∧ countTerminal (runWorker envCancelled).events ≠ 1
    ∧ (runWorker envCancelled).tempFileDeleted = true := by
  refine ⟨by decide, by decide, by decide⟩

def envBatchOk : BatchEnv :=
  { ffmpegFound := true, convertOk := true, modelFound := true, totalFrames := 8000,
    cancelFrom := none, chunkText := fun _ => none, finalFlush := none }

def aenvOk : AudioEnv :=
  { openFails := false, cycles := [CycleOutcome.recognized (some "hello") none],
    flushText := none }

/-- Witness for the amended C3 at a concrete completed batch run and a
concrete stopped capture run. -/
theorem c3_amended_witness :
    countTerminal (runWorker envBatchOk).events
        = (if (runWorker envBatchOk).exit = RunExit.cancelled then 0 else 1)
    ∧ countTerminal (audioRun aenvOk).1 = (if aenvOk.openFails then 1 else 0) :=
  ⟨(c3_amended envBatchOk aenvOk).1, (c3_amended envBatchOk aenvOk).2.2.1⟩

/-! ## Progress monotonicity (C2) -/

theorem pct_mono (total fp fp' : Nat) (h : fp ≤ fp') :
    min (fp * 100 / total) 100 ≤ min (fp' * 100 / total) 100 :=
  min_le_min (Nat.div_le_div_right (Nat.mul_le_mul_right 100 h)) le_rfl

theorem progressEvents_flush (flush : Option String) :
    progressEvents ((match flush with
      | some s => [Event.text s]
      | none => []) ++ [Event.progress 100, Event.finished]) = [100] := by
  cases flush <;> rfl

theorem chunkLoop_progress_some (ct : Nat → Option String) (flush : Option String)
    (total : Nat) :
    ∀ (n j fp : Nat),
      ∃ l, progressEvents (chunkLoop none ct flush total j fp
            (some (min (fp * 100 / total) 100)) n).1 = l ++ [100]
        ∧ List.Chain' (· < ·) (min (fp * 100 / total) 100 :: l) := by
  intro n
  induction n with
  | zero =>
      intro j fp
      refine ⟨[], ?_, List.chain'_singleton _⟩
      simp only [chunkLoop, isCancelled, Bool.false_eq_true, if_false]
      exact progressEvents_flush flush
  | succ m ih =>
      intro j fp
      obtain ⟨l', hl', hc'⟩ := ih (j + 1) (fp + _CHUNK_FRAMES)
      by_cases heq : min ((fp + _CHUNK_FRAMES) * 100 / total) 100
          = min (fp * 100 / total) 100
      · refine ⟨l', ?_, ?_⟩
        · simp only [chunkLoop, isCancelled, Bool.false_eq_true, if_false]
          rw [progressEvents_append, progressEvents_append, progressEvents_textEv,
            List.nil_append]
          rw [if_neg (by rw [heq]; simp)]
          simpa using hl'
        · rw [← heq]
          exact heq ▸ hc'
      · refine ⟨min ((fp + _CHUNK_FRAMES) * 100 / total) 100 :: l', ?_, ?_⟩
        · simp only [chunkLoop, isCancelled, Bool.false_eq_true, if_false]
          rw [progressEvents_append, progressEvents_append, progressEvents_textEv,
            List.nil_append]
          rw [if_pos (by simpa using heq)]
          rw [hl']
          rfl
        · rw [List.chain'_cons]
          refine ⟨?_, hc'⟩
          exact lt_of_le_of_ne (pct_mono total fp (fp + _CHUNK_FRAMES) (Nat.le_add_right _ _))
            (Ne.symm heq)

theorem chunkLoop_progress_none (ct : Nat → Option String) (flush : Option String)
    (total : Nat) (n j fp : Nat) :
    ∃ l, progressEvents (chunkLoop none ct flush total j fp none n).1 = l ++ [100]
      ∧ List.Chain' (· < ·) l := by
  cases n with
  | zero =>
      refine ⟨[], ?_, List.chain'_nil⟩
      simp only [chunkLoop, isCancelled, Bool.false_eq_true, if_false]
      exact progressEvents_flush flush
  | succ m =>
      obtain ⟨l', hl', hc'⟩ := chunkLoop_progress_some ct flush total m (j + 1)
        (fp + _CHUNK_FRAMES)
      refine ⟨min ((fp + _CHUNK_FRAMES) * 100 / total) 100 :: l', ?_, hc'⟩
      simp only [chunkLoop, isCancelled, Bool.false_eq_true, if_false]
      rw [progressEvents_append, progressEvents_append, progressEvents_textEv,
        List.nil_append]
      rw [if_pos (by simp)]
      rw [hl']
      rfl

/-- C2 (amended): in a successful, uncancelled batch run the in-loop
progress emissions are de-duplicated and strictly increasing, and the
finalization at line 146 then emits one more unconditional `progress 100`,
duplicating the last in-loop value: the emitted progress sequence is a
strictly increasing list followed by one extra 100. -/
theorem c2_amended (env : BatchEnv) (hff : env.ffmpegFound = true)
    (hco : env.convertOk = true) (hmo : env.modelFound = true)
    (hnc : env.cancelFrom = none) (htf : env.totalFrames ≠ 0) :
    List.Chain' (· < ·) ((progressEvents (runWorker env).events).dropLast)
    ∧ (progressEvents (runWorker env).events).getLast? = some 100 := by
  have hdo : doTranscription env
      = ((chunkLoop none env.chunkText env.finalFlush env.totalFrames 1 0 none
          (numChunks env.totalFrames)).1,
         if (chunkLoop none env.chunkText env.finalFlush env.totalFrames 1 0 none
            (numChunks env.totalFrames)).2 then BatchExit.completed
         else BatchExit.cancelled) := by
    unfold doTranscription
    rw [hff, hco, hmo, hnc]
    simp [isCancelled, htf]
  have hev : (runWorker env).events
      = (chunkLoop none env.chunkText env.finalFlush env.totalFrames 1 0 none
          (numChunks env.totalFrames)).1 := by
    unfold runWorker
    rw [hdo]
    cases (chunkLoop none env.chunkText env.finalFlush env.totalFrames 1 0 none
      (numChunks env.totalFrames)).2 <;> rfl
  obtain ⟨l, hl, hc⟩ := chunkLoop_progress_none env.chunkText env.finalFlush
    env.totalFrames (numChunks env.totalFrames) 1 0
  rw [hev, hl]
  exact ⟨by rw [List.dropLast_concat]; exact hc, List.getLast?_concat _⟩

def env8000 : BatchEnv :=
  { ffmpegFound := true, convertOk := true, modelFound := true, totalFrames := 8000,
    cancelFrom := none, chunkText := fun _ => none, finalFlush := none }

/-- C2 counterexample: the claim says the 8000-frame, chunk-4000 run emits
exactly the progress events 50 then 100 with no duplicates.  The run's
in-loop emissions are 50 then 100, but the unconditional
`progress_updated.emit(100)` at line 146 follows, so the run actually emits
50, 100, 100 — a duplicated 100. -/
theorem c2_counterexample :
    progressEvents (runWorker env8000).events = [50, 100, 100]
    ∧ progressEvents (runWorker env8000).events ≠ [50, 100] := by
  exact ⟨by decide, by decide⟩

/-- Witness for the amended C2 at the concrete 8000-frame run. -/
theorem c2_amended_witness :
    List.Chain' (· < ·) ((progressEvents (runWorker env8000).events).dropLast)
    ∧ (progressEvents (runWorker env8000).events).getLast? = some 100 :=
  c2_amended env8000 rfl rfl rfl rfl (by decide)

/-! ## Cancellation at a chunk boundary (C4) -/

theorem chunkLoop_cancel_aux (ct : Nat → Option String) (flush : Option String)
    (c total : Nat) (h100 : _CHUNK_FRAMES * (c - 1) < total) :
    ∀ (n j : Nat) (lp : Option Nat), 1 ≤ j → j ≤ c → c ≤ j + n →
      (chunkLoop (some c) ct flush total j (_CHUNK_FRAMES * (j - 1)) lp n).2 = false
      ∧ ∀ e ∈ (chunkLoop (some c) ct flush total j (_CHUNK_FRAMES * (j - 1)) lp n).1,
          e ≠ Event.finished ∧ e ≠ Event.progress 100 := by
  have htot : 0 < total := lt_of_le_of_lt (Nat.zero_le _) h100
  intro n
  induction n with
  | zero =>
      intro j lp hj1 hjc hcj
      have hjeq : j = c := le_antisymm hjc (by omega)
      subst hjeq
      have hcanc : isCancelled (some j) j = true := by simp [isCancelled]
      simp [chunkLoop, hcanc]
  | succ m ih =>
      intro j lp hj1 hjc hcj
      by_cases hcle : c ≤ j
      · have hjeq : j = c := le_antisymm hjc hcle
        subst hjeq
        have hcanc : isCancelled (some j) j = true := by simp [isCancelled]
        simp [chunkLoop, hcanc]
      · push_neg at hcle
        have hcanc : isCancelled (some c) j = false := by
          simp only [isCancelled, decide_eq_false_iff_not]
          omega
        have hfp : _CHUNK_FRAMES * (j - 1) + _CHUNK_FRAMES = _CHUNK_FRAMES * (j + 1 - 1) := by
          simp only [_CHUNK_FRAMES, Nat.add_sub_cancel]
          omega
        have hfp_lt : _CHUNK_FRAMES * (j - 1) + _CHUNK_FRAMES < total := by
          rw [hfp]
          calc _CHUNK_FRAMES * (j + 1 - 1) ≤ _CHUNK_FRAMES * (c - 1) :=
                Nat.mul_le_mul_left _ (by omega)
            _ < total := h100
        have hpct_lt : min ((_CHUNK_FRAMES * (j - 1) + _CHUNK_FRAMES) * 100 / total) 100 < 100 := by
          have hdiv : (_CHUNK_FRAMES * (j - 1) + _CHUNK_FRAMES) * 100 / total < 100 := by
            rw [Nat.div_lt_iff_lt_mul htot]
            simp only [_CHUNK_FRAMES] at hfp_lt ⊢
            omega
          exact lt_of_le_of_lt (Nat.min_le_left _ _) hdiv
        obtain ⟨ihdone, ihmem⟩ := ih (j + 1)
          (some (min ((_CHUNK_FRAMES * (j - 1) + _CHUNK_FRAMES) * 100 / total) 100))
          (by omega) (by omega) (by omega)
        rw [← hfp] at ihdone ihmem
        refine ⟨?_, ?_⟩
        · simp only [chunkLoop, hcanc, Bool.false_eq_true, if_false]
          exact ihdone
        · simp only [chunkLoop, hcanc, Bool.false_eq_true, if_false]
          intro e he
          simp only [List.mem_append] at he
          rcases he with he | he
          · rcases he with he | he
            · rcases hct : ct j with _ | s
              · rw [hct] at he
                simp at he
              · rw [hct] at he
                simp only [List.mem_singleton] at he
                subst he
                refine ⟨fun h => ?_, fun h => ?_⟩ <;> cases h
            · have hep : e = Event.progress
                  (min ((_CHUNK_FRAMES * (j - 1) + _CHUNK_FRAMES) * 100 / total) 100) := by
                split at he
                · simpa using he
                · simp at he
              subst hep
              refine ⟨fun h => ?_, fun h => ?_⟩
              · cases h
              · rw [Event.progress.injEq] at h
                exact absurd h (Nat.ne_of_lt hpct_lt)
          · exact ihmem e he

/-- C4: if cancellation is requested after chunk `k` but before chunk `k + 1`
of a batch run (and chunk `k + 1` carries data, i.e. `4000 k` frames do not
yet exhaust the file), the run exits through the cancellation check at the
next chunk boundary: it emits no completion event and no `progress 100`
event, and the temporary conversion file is deleted. -/
theorem c4_cancellation (env : BatchEnv) (k : Nat)
    (hff : env.ffmpegFound = true) (hco : env.convertOk = true)
    (hmo : env.modelFound = true) (hc : env.cancelFrom = some (k + 1))
    (hk : 1 ≤ k) (hnext : _CHUNK_FRAMES * k < env.totalFrames) :
    (runWorker env).exit = RunExit.cancelled
    ∧ Event.finished ∉ (runWorker env).events
    ∧ Event.progress 100 ∉ (runWorker env).events
    ∧ (runWorker env).tempFileDeleted = true := by
  have htf : env.totalFrames ≠ 0 := by
    intro h0
    rw [h0] at hnext
    exact absurd hnext (by omega)
  have hcheck0 : isCancelled env.cancelFrom 0 = false := by
    rw [hc]
    simp [isCancelled]
  have hchunks : k + 1 ≤ 1 + numChunks env.totalFrames := by
    have hk' : k ≤ numChunks env.totalFrames := by
      unfold numChunks
      rw [Nat.le_div_iff_mul_le (by simp [_CHUNK_FRAMES])]
      simp only [_CHUNK_FRAMES] at hnext ⊢
      omega
    omega
  obtain ⟨hdone, hmem⟩ := chunkLoop_cancel_aux env.chunkText env.finalFlush (k + 1)
    env.totalFrames (by simpa using hnext) (numChunks env.totalFrames) 1 none
    le_rfl (by omega) hchunks
  have hzero : _CHUNK_FRAMES * (1 - 1) = 0 := by simp
  rw [hzero] at hdone hmem
  have hdo : doTranscription env
      = ((chunkLoop (some (k + 1)) env.chunkText env.finalFlush env.totalFrames 1 0 none
          (numChunks env.totalFrames)).1, BatchExit.cancelled) := by
    simp only [doTranscription]
    rw [if_neg (by simp [hff]), if_neg (by simp [hco]), hc,
      if_neg (by simp [isCancelled]),
      if_neg (by simp [hmo]), if_neg htf]
    rw [hdone]
    rfl
  have hev : runWorker env
      = ⟨(chunkLoop (some (k + 1)) env.chunkText env.finalFlush env.totalFrames 1 0 none
          (numChunks env.totalFrames)).1, RunExit.cancelled, env.ffmpegFound⟩ := by
    unfold runWorker
    rw [hdo]
  rw [hev]
  refine ⟨rfl, ?_, ?_, hff⟩
  · intro hmemf
    exact (hmem _ hmemf).1 rfl
  · intro hmemp
    exact (hmem _ hmemp).2 rfl

def envC4 : BatchEnv :=
  { ffmpegFound := true, convertOk := true, modelFound := true, totalFrames := 12000,
    cancelFrom := some 2, chunkText := fun _ => none, finalFlush := none }

/-- Witness for C4: a 12000-frame run cancelled between chunk 1 and
chunk 2. -/
theorem c4_cancellation_witness :
    (runWorker envC4).exit = RunExit.cancelled
    ∧ Event.finished ∉ (runWorker envC4).events
    ∧ Event.progress 100 ∉ (runWorker envC4).events
    ∧ (runWorker envC4).tempFileDeleted = true :=
  c4_cancellation envC4 1 rfl rfl rfl rfl le_rfl (by decide)

end STT
